import Mathlib

/-!
Verification of the sqsgenerator CLI layer: a shallow embedding of
`sqsgenerator/core/structure.py`, `sqsgenerator/commands/run.py`,
`sqsgenerator/settings/functional.py`, `sqsgenerator/settings/__init__.py`
and (modelled from the spec where the module is absent) the settings readers.
Python lists and numpy arrays become Lean lists; fallible operations return
`Except`; the in-place dictionary mutation of `construct_settings` is embedded
with an explicit object store.
-/

namespace SqsVerify

/-- The `BadSettings` exception. Modelled from the spec: the class itself lives
in `sqsgenerator/settings/exceptions.py`, which is not in src; per section 7 of
the spec it carries a message and the offending parameter name. -/
structure BadSettings where
  message : String
  parameter : Option String
deriving DecidableEq

/-- The Python exceptions raised by the embedded code paths. -/
inductive PyErr where
  | typeError (msg : String)
  | valueError (msg : String)
  | indexError (msg : String)
  | keyError (k : String)
  | attributeError (k : String)
  | badSettings (b : BadSettings)
deriving DecidableEq

/-- Whether an `Except` computation succeeded. -/
def exceptIsOk {ε α : Type} : Except ε α → Bool
  | .ok _ => true
  | .error _ => false

/-! ## numpy index semantics

numpy integer (fancy) indexing accepts any index `i` with `-n ≤ i < n`;
a negative index addresses from the end (`n + i`); anything else raises
`IndexError`. -/

/-- Resolve a (possibly negative) numpy index against an array of length `n`. -/
def resolveIndex (n : Nat) (i : Int) : Option Nat :=
  if 0 ≤ i then (if i < (n : Int) then some i.toNat else none)
  else (if -(n : Int) ≤ i then some ((n : Int) + i).toNat else none)

/-- Python-style index resolution (used after an explicit range check,
as in `Structure.__getitem__`). -/
def pyResolve (n : Nat) (i : Int) : Nat :=
  if i < 0 then ((n : Int) + i).toNat else i.toNat

/-- Fancy-indexing read `a[idx]`: fails (IndexError) on any out-of-range
index. -/
def npTake {α : Type} (l : List α) : List Int → Option (List α)
  | [] => some []
  | i :: is =>
    match resolveIndex l.length i with
    | none => none
    | some j =>
      match l[j]?, npTake l is with
      | some a, some rest => some (a :: rest)
      | _, _ => none

/-- One-by-one elementwise store of index/value pairs, the core of numpy
fancy-indexing assignment `a[idx] = vals`. -/
def npSetPairs {α : Type} (l : List α) : List (Int × α) → Option (List α)
  | [] => some l
  | p :: ps =>
    match resolveIndex l.length p.1 with
    | none => none
    | some j => npSetPairs (l.set j p.2) ps

/-- Fancy-indexing assignment `a[idx] = vals` (no broadcasting: the index and
value sequences must have equal length, which every embedded call site either
checks beforehand or is given by hypothesis). -/
def npSet {α : Type} (l : List α) (idx : List Int) (vals : List α) : Option (List α) :=
  if idx.length = vals.length then npSetPairs l (idx.zip vals) else none

/-! ## The Structure class (`sqsgenerator/core/structure.py`) -/

/-- Crystal structure: lattice rows, fractional coordinates, species symbols,
periodic-boundary flags. The Python constructor defaults `pbc` to
`(True, True, True)`. -/
structure Structure where
  lattice : List (List ℚ)
  frac_coords : List (List ℚ)
  symbols : List String
  pbc : Bool × Bool × Bool
deriving DecidableEq

/-- `num_atoms`: the number of sites. -/
def Structure.num_atoms (s : Structure) : Nat := s.symbols.length

/-- Modelled from the spec: the species table of the core extension
(`sqsgenerator.core.core`, not in src) associates an atomic number Z with each
symbol (spec section 3); the table here is restricted to the symbols used in
this development. -/
def atomicNumber (sym : String) : Nat :=
  if sym = "H" then 1
  else if sym = "He" then 2
  else if sym = "C" then 6
  else if sym = "N" then 7
  else if sym = "O" then 8
  else if sym = "Na" then 11
  else if sym = "Cl" then 17
  else if sym = "Fe" then 26
  else if sym = "Cs" then 55
  else 0

/-- `Structure.numbers`: the per-site atomic numbers. -/
def Structure.numbers (s : Structure) : List Nat := s.symbols.map atomicNumber

/-- Argument of `Structure.__getitem__`: an integer or an integer array. -/
inductive ItemIndex where
  | int (i : Int)
  | array (idx : List Int)
deriving DecidableEq

/-- Result of `Structure.__getitem__`: a single species entry or a new
(sub-)structure. -/
inductive ItemResult where
  | atom (sym : String)
  | struct (s : Structure)
deriving DecidableEq

/-- `Structure.__getitem__` (structure.py lines 83-100).  An integral index is
range-checked against `[-num_atoms, num_atoms)` and returns the species entry
at that (Python-resolved) position; an index array builds a new `Structure`
from `frac_coords[indices]` and `symbols[indices]` — note the constructor call
on line 100 passes no `pbc`, so the new structure gets the default flags. -/
def Structure.getitem (s : Structure) : ItemIndex → Except PyErr ItemResult
  | .int i =>
    if i < -(s.num_atoms : Int) ∨ (s.num_atoms : Int) ≤ i then
      .error (.indexError "Index out of range.")
    else
      .ok (.atom (s.symbols.getD (pyResolve s.num_atoms i) ""))
  | .array idx =>
    match npTake s.frac_coords idx, npTake s.symbols idx with
    | some fc, some syms => .ok (.struct ⟨s.lattice, fc, syms, (true, true, true)⟩)
    | _, _ => .error (.indexError "index out of bounds")

/-- `Structure.with_species` (structure.py lines 129-152).  Line 144
`which = which or tuple(range)` raises `TypeError` whenever `which` is falsy
(empty or `None`), because `tuple(range)` iterates the `range` class itself.
Then the species list must be nonempty and of the same length as `which`;
the new symbols are produced by numpy fancy assignment on a copy, and the
result is built without passing `pbc` (line 152), so it gets the default
flags. -/
def Structure.with_species (s : Structure) (species : List String) (which : List Int) :
    Except PyErr Structure :=
  if which.isEmpty then
    .error (.typeError "type object is not iterable")
  else if species.length < 1 then
    .error (.valueError "Cannot create an empty structure")
  else if which.length ≠ species.length then
    .error (.valueError "Number of species does not match the number of specified atoms")
  else
    match npSet s.symbols which species with
    | none => .error (.indexError "index out of bounds")
    | some newSymbols => .ok ⟨s.lattice, s.frac_coords, newSymbols, (true, true, true)⟩

/-! ## `expand_results` (`sqsgenerator/commands/run.py` lines 73-90)

The result document carries a parent structure, an optional sublattice index
list `which`, and a rank-to-configuration map.  The Python helper
`new_species` fetches `s.symbols` — the very `_symbols` array of the parent,
not a copy — and assigns `species[mask] = conf` in place, so the running
symbols array threads through the iterations of the comprehension; the
embedding makes that threading explicit. -/

/-- An association-list dictionary (Python `dict` / `AttrDict`). -/
def Dict (V : Type) : Type := List (String × V)

/-- Membership test for a key. -/
def dictHas {V : Type} : Dict V → String → Bool
  | [], _ => false
  | (k2, _) :: rest, k => decide (k2 = k) || dictHas rest k

/-- Lookup of a key. -/
def dictGet {V : Type} : Dict V → String → Option V
  | [], _ => none
  | (k2, v) :: rest, k => if k2 = k then some v else dictGet rest k

/-- Assignment `d[k] = v`: replaces the first binding of `k`, or appends. -/
def dictSet {V : Type} : Dict V → String → V → Dict V
  | [], k, v => [(k, v)]
  | (k2, v2) :: rest, k, v =>
    if k2 = k then (k2, v) :: rest else (k2, v2) :: dictSet rest k v

/-- The static data of one `parameter(...)` decoration: the parameter name,
the settings key (defaults to the name), whether a default value exists and
which, and whether the parameter is required. -/
structure ParamSpec (V : Type) where
  name : String
  key : String
  required : Bool
  default : Option V

/-- The `_wrapped` closure of the `parameter` decorator (functional.py lines
26-46): when the key is present the reader body runs, a `BadSettings` it
raises gets its `parameter` attribute overwritten with the declared name and
is re-raised, and a returned value passes through; when the key is absent a
required parameter without default raises, a default is returned if present,
and a non-required parameter silently yields `None`. -/
def parameterWrapped {V : Type} (p : ParamSpec V)
    (f : Dict V → Except BadSettings V) (settings : Dict V) :
    Except BadSettings (Option V) :=
  if dictHas settings p.key then
    match f settings with
    | .error exc => .error { exc with parameter := some p.name }
    | .ok v => .ok (some v)
  else
    if p.required then
      match p.default with
      | none => .error ⟨"Required parameter was not found", some p.name⟩
      | some df => .ok (some df)
    else
      .ok none

/-! ## `read_shell_distances` (settings reader, modelled from the spec) -/

/-- A Python numeric scalar: a real number or a complex (non-real) value. -/
inductive PyNum where
  | real (q : ℚ)
  | cplx (re im : ℚ)
deriving DecidableEq

/-- The real value of a `PyNum`, when it is one. -/
def PyNum.toReal : PyNum → Option ℚ
  | .real q => some q
  | .cplx _ _ => none

/-- Effectful map over `Option` (the semantics of mapping a partial
conversion over a Python sequence: the first failure aborts). -/
def optionMapList {α β : Type} (f : α → Option β) : List α → Option (List β)
  | [] => some []
  | a :: as =>
    match f a with
    | none => none
    | some b =>
      match optionMapList f as with
      | none => none
      | some bs => some (b :: bs)

/-- Adjacent-pairs strict increase. -/
def strictIncrB : List ℚ → Bool
  | [] => true
  | [_] => true
  | a :: b :: t => decide (a < b) && strictIncrB (b :: t)

/-- Insert the leading `0` if it is absent. -/
def withLeadZero (qs : List ℚ) : List ℚ :=
  if qs.head? = some 0 then qs else 0 :: qs

/-- The validation core of `read_shell_distances` on a list of reals. -/
def read_shell_distances_reals (qs : List ℚ) : Except BadSettings (List ℚ) :=
  if qs.any (fun q => decide (q < 0)) then
    .error ⟨"shell distances must be non-negative", some "shell_distances"⟩
  else if !strictIncrB (withLeadZero qs) then
    .error ⟨"shell distances must be strictly increasing", some "shell_distances"⟩
  else if (withLeadZero qs).length < 2 then
    .error ⟨"at least one nonzero shell distance is needed", some "shell_distances"⟩
  else
    .ok (withLeadZero qs)

/-- Modelled from the spec: `sqsgenerator/settings/readers.py` is not in src.
Spec section 4.G: "`shell_distances`: strictly increasing positive reals; a
leading 0 is inserted if absent; length >= 2", each failure raising a
validation error tagged with the parameter name (scenario S5 tags it
`shell_distances`); the behaviour on the concrete inputs of
`src/test/cli/bindings/test_readers.py` lines 212-238 is reproduced. -/
def read_shell_distances (ds : List PyNum) : Except BadSettings (List ℚ) :=
  match optionMapList PyNum.toReal ds with
  | none => .error ⟨"each shell distance must be a real number", some "shell_distances"⟩
  | some qs => read_shell_distances_reals qs

/-! ## `read_target_objective`, scalar case (modelled from the spec) -/

/-- Stable insertion into a list sorted by `le`. -/
def insertSortedBy {α : Type} (le : α → α → Bool) (a : α) : List α → List α
  | [] => [a]
  | b :: t => if le a b then a :: b :: t else b :: insertSortedBy le a t

/-- Stable insertion sort by `le`. -/
def sortListBy {α : Type} (le : α → α → Bool) (l : List α) : List α :=
  l.foldr (insertSortedBy le) []

/-- Shell weights sorted by ascending shell index. -/
def sortedShellWeights (sw : List (Nat × ℚ)) : List (Nat × ℚ) :=
  sortListBy (fun a b => decide (a.1 ≤ b.1)) sw

/-- Modelled from the spec: `sqsgenerator/settings/readers.py` is not in src.
Spec section 4.G describes the scalar form of `target_objective` as broadcast
over the shells using `shell_weights`; the shape and the exact entry values
are pinned by `src/test/cli/bindings/test_readers.py` lines 295-304: the
result has one `K x K` slice per shell (shells in ascending order), and the
slice for shell `s` is uniformly filled with `w[s] * t`. -/
def read_target_objective_scalar (t : ℚ) (sw : List (Nat × ℚ)) (K : Nat) :
    List (List (List ℚ)) :=
  (sortedShellWeights sw).map (fun p => List.replicate K (List.replicate K (p.2 * t)))

/-! ## `Structure.sorted` (structure.py lines 74-81) and the argsort contract

`sorted()` is `self[np.argsort(self._numbers)]` with numpy's default sort
kind (`quicksort`), which numpy documents as *not* stable: any permutation
that sorts the atomic numbers non-decreasingly is a possible output.  The
embedding therefore gives `sorted()` a relational semantics. -/

/-- Adjacent-pairs non-decrease on naturals. -/
def nondecB : List Nat → Bool
  | [] => true
  | [_] => true
  | a :: b :: t => decide (a ≤ b) && nondecB (b :: t)

/-- What `np.argsort(xs)` guarantees about its output `p` (and nothing more):
`p` is a permutation of `0..n-1` and reading `xs` along `p` is
non-decreasing.  The default `kind` makes no stability promise. -/
def npArgsortContract (xs : List Nat) (p : List Nat) : Prop :=
  p.length = xs.length ∧ p.Nodup ∧ (∀ i ∈ p, i < xs.length) ∧
    nondecB (p.map (fun i => xs.getD i 0)) = true

/-- `t` is a possible value of `s.sorted()`: some argsort-contract permutation
of the atomic numbers, fed through `Structure.__getitem__`. -/
def Structure.sortedPossible (s t : Structure) : Prop :=
  ∃ p : List Nat, npArgsortContract s.numbers p ∧
    s.getitem (.array (p.map Int.ofNat)) = .ok (.struct t)

/-- The ordering the claim asks for, written from the claim/spec wording: a
*stable* ascending sort of the site indices by atomic number (ties broken by
the original position), for comparison with what the code guarantees. -/
def stableArgsort (xs : List Nat) : List Nat :=
  sortListBy
    (fun i j =>
      decide (xs.getD i 0 < xs.getD j 0) ||
        (decide (xs.getD i 0 = xs.getD j 0) && decide (i ≤ j)))
    (List.range xs.length)

/-! ## `construct_settings` (`sqsgenerator/settings/__init__.py` lines 10-45)

The function shallow-copies the caller's settings dict, overloads keys on the
copy (raising `KeyError` for a key the settings do not already have),
optionally runs `process_settings` on the copy, and reads eleven keys to
build the `IterationSettings`.  To state that the *caller's* mapping is
untouched, dictionaries live in an explicit object store indexed by object
identity; every write of the function targets the freshly allocated copy. -/

/-- An object identity. -/
abbrev ObjId := Nat

/-- A store of dictionary objects. -/
def Store (V : Type) : Type := List (ObjId × Dict V)

/-- Read an object from the store. -/
def storeGet {V : Type} : Store V → ObjId → Option (Dict V)
  | [], _ => none
  | (r2, d) :: rest, r => if r2 = r then some d else storeGet rest r

/-- Overwrite an existing object in the store. -/
def storeSet {V : Type} : Store V → ObjId → Dict V → Store V
  | [], _, _ => []
  | (r2, d2) :: rest, r, d =>
    if r2 = r then (r2, d) :: rest else (r2, d2) :: storeSet rest r d

/-- An identity not yet used by the store. -/
def freshId {V : Type} (σ : Store V) : ObjId :=
  (σ.map (fun p => p.1)).foldr max 0 + 1

/-- The overload loop of `construct_settings`: each keyword overload must name
an existing key of the settings object `r`, else `KeyError`; a hit updates
the object in place. -/
def applyOverloads {V : Type} (σ : Store V) (r : ObjId) :
    List (String × V) → Store V × Option String
  | [] => (σ, none)
  | (k, v) :: rest =>
    match storeGet σ r with
    | none => (σ, some k)
    | some d =>
      if dictHas d k then applyOverloads (storeSet σ r (dictSet d k v)) r rest
      else (σ, some k)

/-- The record handed to the C++ extension. -/
structure IterationSettings (V : Type) where
  struct : V
  target_objective : V
  pair_weights : V
  shell_weights : V
  iterations : V
  max_output_configurations : V
  shell_distances : V
  threads_per_rank : V
  atol : V
  rtol : V
  mode : V

/-- Reading the eleven settings attributes used by the `IterationSettings`
constructor call; a missing one raises `AttributeError` (attribute access on
an `AttrDict`). -/
def readIterationSettings {V : Type} (d : Dict V) : Option (IterationSettings V) := do
  let st ← dictGet d "structure"
  let tobj ← dictGet d "target_objective"
  let pw ← dictGet d "pair_weights"
  let shw ← dictGet d "shell_weights"
  let its ← dictGet d "iterations"
  let moc ← dictGet d "max_output_configurations"
  let shd ← dictGet d "shell_distances"
  let tpr ← dictGet d "threads_per_rank"
  let at2 ← dictGet d "atol"
  let rt ← dictGet d "rtol"
  let md ← dictGet d "mode"
  return ⟨st, tobj, pw, shw, its, moc, shd, tpr, at2, rt, md⟩

/-- `construct_settings` over the object store: `sid` is the identity of the
caller's settings dict; `processFn` stands for `process_settings` (absent
from src; per spec sections 4.G and 7 its failures are `BadSettings`).
Returns the final store together with the outcome. -/
def construct_settings {V : Type} (σ : Store V) (sid : ObjId) (process : Bool)
    (processFn : Dict V → Except BadSettings (Dict V))
    (overloads : List (String × V)) :
    Store V × Except PyErr (IterationSettings V) :=
  match storeGet σ sid with
  | none => (σ, .error (.attributeError "copy"))
  | some caller =>
    let fresh := freshId σ
    let σ1 := (fresh, caller) :: σ
    let step := applyOverloads σ1 fresh overloads
    match step.2 with
    | some k => (step.1, .error (.keyError k))
    | none =>
      match storeGet step.1 fresh with
      | none => (step.1, .error (.attributeError "settings"))
      | some d2 =>
        match (if process then processFn d2 else .ok d2) with
        | .error b => (step.1, .error (.badSettings b))
        | .ok d3 =>
          let σ3 := storeSet step.1 fresh d3
          match readIterationSettings d3 with
          | none => (σ3, .error (.attributeError "structure"))
          | some its => (σ3, .ok its)

/-! ## Concrete fixtures used by counterexamples and witnesses -/

/-- A two-site CsCl-like cell with default periodicity. -/
def csClCell : Structure :=
  ⟨[[4, 0, 0], [0, 4, 0], [0, 0, 4]], [[0, 0, 0], [1/2, 1/2, 1/2]],
    ["Cs", "Cl"], (true, true, true)⟩

/-- The same cell with a non-default periodicity flag on the first axis. -/
def csClSlab : Structure :=
  ⟨[[4, 0, 0], [0, 4, 0], [0, 0, 4]], [[0, 0, 0], [1/2, 1/2, 1/2]],
    ["Cs", "Cl"], (false, true, true)⟩

/-- Two sites occupied by the same species at distinct positions. -/
def twoHydrogens : Structure :=
  ⟨[[1, 0, 0], [0, 1, 0], [0, 0, 1]], [[0, 0, 0], [0, 0, 1]],
    ["H", "H"], (true, true, true)⟩

/-! ## Lemmas about the numpy index model -/

lemma resolveIndex_eq_none_iff (n : Nat) (i : Int) :
    resolveIndex n i = none ↔ (i < -(n : Int) ∨ (n : Int) ≤ i) := by
  unfold resolveIndex
  split <;> split <;> simp <;> omega

lemma npSetPairs_length {α : Type} (ps : List (Int × α)) (l m : List α)
    (h : npSetPairs l ps = some m) : m.length = l.length := by
  induction ps generalizing l with
  | nil =>
    simp only [npSetPairs, Option.some.injEq] at h
    subst h; rfl
  | cons p ps ih =>
    cases hr : resolveIndex l.length p.1 with
    | none =>
      simp only [npSetPairs, hr] at h
      exact Option.noConfusion h
    | some j =>
      simp only [npSetPairs, hr] at h
      have := ih (l.set j p.2) h
      simpa using this

lemma npSetPairs_eq_none_iff {α : Type} (ps : List (Int × α)) (l : List α) :
    npSetPairs l ps = none ↔ ∃ p ∈ ps, resolveIndex l.length p.1 = none := by
  induction ps generalizing l with
  | nil => simp [npSetPairs]
  | cons p ps ih =>
    unfold npSetPairs
    cases hr : resolveIndex l.length p.1 with
    | none => simp [hr]
    | some j =>
      have hlen : (l.set j p.2).length = l.length := by simp
      rw [ih (l.set j p.2), hlen]
      simp [hr]

lemma npSetPairs_getElem?_outside {α : Type} (ps : List (Int × α)) (l m : List α) (i : Nat)
    (h : npSetPairs l ps = some m)
    (hout : ∀ p ∈ ps, resolveIndex l.length p.1 ≠ some i) :
    m[i]? = l[i]? := by
  induction ps generalizing l with
  | nil =>
    simp only [npSetPairs, Option.some.injEq] at h
    subst h; rfl
  | cons p ps ih =>
    cases hr : resolveIndex l.length p.1 with
    | none =>
      simp only [npSetPairs, hr] at h
      exact Option.noConfusion h
    | some j =>
      simp only [npSetPairs, hr] at h
      have hji : j ≠ i := fun hji => hout p (by simp) (by rw [hr, hji])
      have hlen : (l.set j p.2).length = l.length := by simp
      have step := ih (l.set j p.2) h (by
        intro q hq
        rw [hlen]
        exact hout q (by simp [hq]))
      rw [step]
      exact List.getElem?_set_ne hji

lemma npSet_some_elim {α : Type} (l m : List α) (idx : List Int) (vals : List α)
    (h : npSet l idx vals = some m) :
    idx.length = vals.length ∧ npSetPairs l (idx.zip vals) = some m := by
  unfold npSet at h
  split at h
  · exact ⟨by assumption, h⟩
  · exact absurd h (by simp)

lemma npSet_getElem?_outside {α : Type} (l m : List α) (idx : List Int) (vals : List α)
    (i : Nat) (h : npSet l idx vals = some m)
    (hout : ∀ j ∈ idx, resolveIndex l.length j ≠ some i) :
    m[i]? = l[i]? := by
  obtain ⟨-, hp⟩ := npSet_some_elim l m idx vals h
  exact npSetPairs_getElem?_outside _ l m i hp
    (fun p hpmem => hout p.1 (List.mem_zip hpmem).1)

lemma npSet_length {α : Type} (l m : List α) (idx : List Int) (vals : List α)
    (h : npSet l idx vals = some m) : m.length = l.length := by
  obtain ⟨-, hp⟩ := npSet_some_elim l m idx vals h
  exact npSetPairs_length _ l m hp

lemma exists_mem_zip_iff {α β : Type} (P : α → Prop) :
    ∀ (l : List α) (l2 : List β), l.length = l2.length →
      ((∃ p ∈ l.zip l2, P p.1) ↔ ∃ a ∈ l, P a) := by
  intro l
  induction l with
  | nil => intro l2 _; simp
  | cons a as ih =>
    intro l2 hlen
    cases l2 with
    | nil => simp at hlen
    | cons b bs =>
      simp only [List.zip_cons_cons, List.mem_cons, List.length_cons] at *
      constructor
      · rintro ⟨p, hp | hp, hP⟩
        · exact ⟨a, Or.inl rfl, by rw [hp] at hP; exact hP⟩
        · obtain ⟨x, hx, hPx⟩ := (ih bs (by omega)).1 ⟨p, hp, hP⟩
          exact ⟨x, Or.inr hx, hPx⟩
      · rintro ⟨x, rfl | hx, hPx⟩
        · exact ⟨(x, b), Or.inl rfl, hPx⟩
        · obtain ⟨p, hp, hP⟩ := (ih bs (by omega)).2 ⟨x, hx, hPx⟩
          exact ⟨p, Or.inr hp, hP⟩

lemma npSet_eq_none_iff {α : Type} (l : List α) (idx : List Int) (vals : List α) :
    npSet l idx vals = none ↔
      idx.length ≠ vals.length ∨ ∃ j ∈ idx, resolveIndex l.length j = none := by
  unfold npSet
  split
  · rename_i hlen
    rw [npSetPairs_eq_none_iff]
    rw [exists_mem_zip_iff (fun j => resolveIndex l.length j = none) idx vals hlen]
    simp [hlen]
  · simp [*]

/-- The claim as stated is false: `which = [-1]` contains an index outside
`[0, num_atoms)`, for which the claim predicts an error, but numpy fancy
assignment accepts every index in `[-num_atoms, num_atoms)`, so the call
succeeds (and rewrites the last site). -/
theorem with_species_c6_counterexample :
    exceptIsOk (csClCell.with_species ["H"] [-1]) = true ∧
    ¬ (0 ≤ (-1 : Int) ∧ (-1 : Int) < (csClCell.num_atoms : Int)) := by
  constructor
  · rfl
  · decide

/-- C6 (amended): `with_species(species, which)` raises an error if and only
if `which` is empty (line 144 `which or tuple(range)` raises `TypeError` on a
falsy `which`), or the lengths of `which` and `species` differ (this also
covers an empty `species` with nonempty `which`), or `which` contains an
index outside `[-num_atoms, num_atoms)`; negative indices in
`[-num_atoms, 0)` are accepted Python-style and address from the end. -/
theorem with_species_c6_amended (s : Structure) (species : List String) (which : List Int) :
    exceptIsOk (s.with_species species which) = false ↔
      (which = [] ∨ which.length ≠ species.length ∨
        ∃ i ∈ which, i < -(s.num_atoms : Int) ∨ (s.num_atoms : Int) ≤ i) := by
  unfold Structure.with_species
  by_cases hemp : which.isEmpty
  · rw [if_pos hemp]
    simp [exceptIsOk, List.isEmpty_iff.mp hemp]
  · rw [if_neg hemp]
    have hwne : which ≠ [] := fun hc => by simp [hc] at hemp
    by_cases hsp : species.length < 1
    · rw [if_pos hsp]
      have h2 : which.length ≠ species.length := by
        have := List.length_pos.mpr hwne
        omega
      simp [exceptIsOk, h2]
    · rw [if_neg hsp]
      by_cases hlen : which.length ≠ species.length
      · rw [if_pos hlen]
        simp [exceptIsOk, hlen]
      · rw [if_neg hlen]
        push_neg at hlen
        cases hns : npSet s.symbols which species with
        | none =>
          have hns2 := hns
          rw [npSet_eq_none_iff] at hns2
          rcases hns2 with hc | ⟨j, hj, hres⟩
          · exact absurd hlen hc
          · rw [resolveIndex_eq_none_iff] at hres
            exact iff_of_true rfl (Or.inr (Or.inr ⟨j, hj, hres⟩))
        | some newSymbols =>
          apply iff_of_false
          · simp [exceptIsOk]
          · rintro (hc | hc | ⟨i, hi, hout⟩)
            · exact hwne hc
            · exact hc hlen
            · have hcontra : npSet s.symbols which species = none := by
                rw [npSet_eq_none_iff]
                exact Or.inr ⟨i, hi, (resolveIndex_eq_none_iff _ _).mpr hout⟩
              rw [hns] at hcontra
              exact absurd hcontra (by simp)

/-! ## Claim C5: what `with_species` preserves -/

/-- The claim as stated is false on the `pbc` flags: for a structure with
non-default periodicity, `with_species` succeeds but the result carries the
constructor-default flags `(true, true, true)` (structure.py line 152 passes
no `pbc`), not the parent's. -/
theorem with_species_c5_counterexample :
    csClSlab.with_species ["H"] [0] =
      .ok ⟨csClSlab.lattice, csClSlab.frac_coords, ["H", "Cl"], (true, true, true)⟩ ∧
    csClSlab.pbc ≠ (true, true, true) := by
  exact ⟨rfl, by decide⟩

/-- C5 (amended): a successful `with_species(species, which)` returns a
structure with the same lattice, the same `frac_coords`, and the same species
on every site index to which no element of `which` resolves (Python negative
indices resolve to `num_atoms + j`); its `pbc` flags are always
`(true, true, true)`, hence they equal the parent's only when the parent has
the default flags. -/
theorem with_species_c5_amended (s : Structure) (species : List String) (which : List Int)
    (t : Structure) (h : s.with_species species which = .ok t) :
    t.lattice = s.lattice ∧ t.frac_coords = s.frac_coords ∧
      t.pbc = (true, true, true) ∧ t.symbols.length = s.symbols.length ∧
      ∀ i : Nat, (∀ j ∈ which, resolveIndex s.num_atoms j ≠ some i) →
        t.symbols[i]? = s.symbols[i]? := by
  unfold Structure.with_species at h
  by_cases hemp : which.isEmpty
  · rw [if_pos hemp] at h; exact absurd h (by simp)
  · rw [if_neg hemp] at h
    by_cases hsp : species.length < 1
    · rw [if_pos hsp] at h; exact absurd h (by simp)
    · rw [if_neg hsp] at h
      by_cases hlen : which.length ≠ species.length
      · rw [if_pos hlen] at h; exact absurd h (by simp)
      · rw [if_neg hlen] at h
        cases hns : npSet s.symbols which species with
        | none => rw [hns] at h; exact absurd h (by simp)
        | some newSymbols =>
          rw [hns] at h
          have ht : (⟨s.lattice, s.frac_coords, newSymbols, (true, true, true)⟩ : Structure)
              = t := Except.ok.inj h
          subst ht
          refine ⟨rfl, rfl, rfl, npSet_length _ _ _ _ hns, ?_⟩
          intro i hi
          exact npSet_getElem?_outside _ _ _ _ _ hns hi

theorem with_species_c5_amended_witness :
    (csClCell.with_species ["H"] [1] =
      .ok ⟨csClCell.lattice, csClCell.frac_coords, ["Cs", "H"], (true, true, true)⟩) ∧
    (⟨csClCell.lattice, csClCell.frac_coords, ["Cs", "H"],
        (true, true, true)⟩ : Structure).pbc = (true, true, true) :=
  ⟨rfl, (with_species_c5_amended csClCell ["H"] [1] _ rfl).2.2.1⟩

/-! ## Claim C7: reading back the written symbols -/

/-- C10: for `-num_atoms ≤ i < num_atoms`, `s[i]` returns the species entry
at the Python-resolved position (negative indices address from the end); any
other integer raises `IndexError`; an integer index never yields a
`Structure`. -/
theorem getitem_c10 (s : Structure) (i : Int) :
    ((-(s.num_atoms : Int) ≤ i ∧ i < (s.num_atoms : Int)) →
      ∃ a, s.symbols[pyResolve s.num_atoms i]? = some a ∧
        s.getitem (.int i) = .ok (.atom a)) ∧
    ((i < -(s.num_atoms : Int) ∨ (s.num_atoms : Int) ≤ i) →
      s.getitem (.int i) = .error (.indexError "Index out of range.")) ∧
    (∀ t : Structure, s.getitem (.int i) ≠ .ok (.struct t)) := by
  have hna : s.num_atoms = s.symbols.length := rfl
  refine ⟨?_, ?_, ?_⟩
  · rintro ⟨h1, h2⟩
    have hcond : ¬ (i < -(s.num_atoms : Int) ∨ (s.num_atoms : Int) ≤ i) := by omega
    have hres : pyResolve s.num_atoms i < s.symbols.length := by
      rw [← hna]
      unfold pyResolve
      split <;> omega
    refine ⟨s.symbols.getD (pyResolve s.num_atoms i) "", ?_, ?_⟩
    · rw [List.getElem?_eq_getElem hres, List.getD_eq_getElem?_getD,
        List.getElem?_eq_getElem hres]
      rfl
    · simp only [Structure.getitem]
      rw [if_neg hcond]
  · intro hcond
    simp only [Structure.getitem]
    rw [if_pos hcond]
  · intro t
    simp only [Structure.getitem]
    split
    · simp
    · simp

theorem getitem_c10_witness :
    (-(csClCell.num_atoms : Int) ≤ -1 ∧ (-1 : Int) < (csClCell.num_atoms : Int)) ∧
    (∃ a, csClCell.symbols[pyResolve csClCell.num_atoms (-1)]? = some a ∧
      csClCell.getitem (.int (-1)) = .ok (.atom a)) :=
  ⟨by decide, (getitem_c10 csClCell (-1)).1 (by decide)⟩

/-! ## Claim C1: `expand_results` honours the sublattice -/

/-- C2: when the settings mapping contains the reader's key, a `BadSettings`
raised by the reader body propagates with its `parameter` attribute set to
the declared parameter name (functional.py line 44), and a value returned by
the body is passed through unchanged (line 46). -/
theorem parameter_c2 {V : Type} (p : ParamSpec V) (f : Dict V → Except BadSettings V)
    (settings : Dict V) (hk : dictHas settings p.key = true) :
    (∀ exc, f settings = .error exc →
      parameterWrapped p f settings = .error { exc with parameter := some p.name }) ∧
    (∀ v, f settings = .ok v → parameterWrapped p f settings = .ok (some v)) := by
  constructor
  · intro exc hf
    unfold parameterWrapped
    rw [if_pos hk, hf]
  · intro v hf
    unfold parameterWrapped
    rw [if_pos hk, hf]

theorem parameter_c2_witness :
    (dictHas [("atol", (7 : Nat))] "atol" = true) ∧
    (parameterWrapped ⟨"atol", "atol", true, none⟩
        (fun _ => .error ⟨"bad value", none⟩) [("atol", (7 : Nat))] =
      .error ⟨"bad value", some "atol"⟩) :=
  ⟨by decide,
    (parameter_c2 ⟨"atol", "atol", true, none⟩ (fun _ => .error ⟨"bad value", none⟩)
      [("atol", (7 : Nat))] (by decide)).1 ⟨"bad value", none⟩ rfl⟩

/-! ## Claim C3: `read_shell_distances` -/

lemma mapM_toReal_map_real (qs : List ℚ) :
    optionMapList PyNum.toReal (qs.map PyNum.real) = some qs := by
  induction qs with
  | nil => rfl
  | cons q qt ih => simp [optionMapList, PyNum.toReal, ih]

lemma mapM_toReal_some_imp (ds : List PyNum) :
    ∀ qs : List ℚ, optionMapList PyNum.toReal ds = some qs → ds = qs.map PyNum.real := by
  induction ds with
  | nil =>
    intro qs h
    simp only [optionMapList, Option.some.injEq] at h
    rw [← h]
    rfl
  | cons d dt ih =>
    intro qs h
    cases d with
    | cplx a b => simp [optionMapList, PyNum.toReal] at h
    | real q =>
      cases hm : optionMapList PyNum.toReal dt with
      | none => simp [optionMapList, PyNum.toReal, hm] at h
      | some rest =>
        simp only [optionMapList, PyNum.toReal, hm, Option.some.injEq] at h
        rw [← h]
        simp [ih rest hm]

lemma mapM_toReal_none_of_mem (ds : List PyNum) (d : PyNum) (hd : d ∈ ds)
    (hn : d.toReal = none) : optionMapList PyNum.toReal ds = none := by
  induction ds with
  | nil => simp at hd
  | cons d2 dt ih =>
    rcases List.mem_cons.mp hd with rfl | hd2
    · simp [optionMapList, hn]
    · cases hr : d2.toReal with
      | none => simp [optionMapList, hr]
      | some q => simp [optionMapList, hr, ih hd2]

/-- C3 counterexample: the one-element sequence `[0]` is nonempty, all-real,
nonnegative, and strictly increasing after the leading zero, so the claim
predicts it is returned unchanged; but the spec also requires length >= 2 of
the validated list, so the reader rejects it. -/
theorem read_shell_distances_c3_counterexample :
    exceptIsOk (read_shell_distances [PyNum.real 0]) = false ∧
    ([PyNum.real 0] ≠ ([] : List PyNum)) ∧
    (∀ d ∈ [PyNum.real 0], d.toReal ≠ none) ∧
    (∀ q : ℚ, PyNum.real q ∈ [PyNum.real 0] → 0 ≤ q) ∧
    strictIncrB (withLeadZero [(0 : ℚ)]) = true := by
  refine ⟨rfl, by decide, by decide, ?_, by decide⟩
  intro q hq
  have : PyNum.real q = PyNum.real 0 := by simpa using hq
  cases this
  exact le_refl 0

/-- C3 (amended): `read_shell_distances` raises `BadSettings` tagged with
parameter `shell_distances` whenever the sequence is empty, contains a
non-real or negative entry, is not strictly increasing after the leading
zero, or is exactly `[0]` (so fewer than two entries remain after inserting
the leading zero); otherwise it returns the sequence unchanged when its first
element is `0`, and with a single `0` prepended when its first element is
nonzero. -/
theorem read_shell_distances_c3_amended (ds : List PyNum) :
    ((ds = [] ∨ (∃ d ∈ ds, d.toReal = none) ∨ (∃ q : ℚ, PyNum.real q ∈ ds ∧ q < 0) ∨
        (∃ qs : List ℚ, ds = qs.map PyNum.real ∧ strictIncrB (withLeadZero qs) = false) ∨
        ds = [PyNum.real 0]) →
      ∃ e, read_shell_distances ds = .error e ∧ e.parameter = some "shell_distances") ∧
    (∀ qs : List ℚ, ds = qs.map PyNum.real → qs ≠ [] → (∀ q ∈ qs, 0 ≤ q) →
      strictIncrB (withLeadZero qs) = true → qs ≠ [0] →
      (qs.head? = some 0 → read_shell_distances ds = .ok qs) ∧
      (qs.head? ≠ some 0 → read_shell_distances ds = .ok (0 :: qs))) := by
  constructor
  · rintro (rfl | ⟨d, hd, hn⟩ | ⟨q, hq, hneg⟩ | ⟨qs, rfl, hincr⟩ | rfl)
    · exact ⟨⟨"at least one nonzero shell distance is needed", some "shell_distances"⟩,
        rfl, rfl⟩
    · refine ⟨⟨"each shell distance must be a real number", some "shell_distances"⟩, ?_, rfl⟩
      simp only [read_shell_distances, mapM_toReal_none_of_mem ds d hd hn]
    · cases hm : optionMapList PyNum.toReal ds with
      | none =>
        refine ⟨⟨"each shell distance must be a real number", some "shell_distances"⟩, ?_, rfl⟩
        simp only [read_shell_distances, hm]
      | some qs =>
        have hds := mapM_toReal_some_imp ds qs hm
        have hqmem : q ∈ qs := by
          rw [hds] at hq
          obtain ⟨q2, hq2, heq⟩ := List.mem_map.mp hq
          cases heq
          exact hq2
        have hany : qs.any (fun q2 => decide (q2 < 0)) = true :=
          List.any_eq_true.mpr ⟨q, hqmem, by simpa using hneg⟩
        refine ⟨⟨"shell distances must be non-negative", some "shell_distances"⟩, ?_, rfl⟩
        simp only [read_shell_distances, hm]
        unfold read_shell_distances_reals
        rw [if_pos hany]
    · have hm := mapM_toReal_map_real qs
      by_cases hany : qs.any (fun q2 => decide (q2 < 0)) = true
      · refine ⟨⟨"shell distances must be non-negative", some "shell_distances"⟩, ?_, rfl⟩
        simp only [read_shell_distances, hm]
        unfold read_shell_distances_reals
        rw [if_pos hany]
      · refine ⟨⟨"shell distances must be strictly increasing", some "shell_distances"⟩,
          ?_, rfl⟩
        simp only [read_shell_distances, hm]
        unfold read_shell_distances_reals
        rw [if_neg hany, if_pos (by simp [hincr])]
    · exact ⟨⟨"at least one nonzero shell distance is needed", some "shell_distances"⟩,
        rfl, rfl⟩
  · intro qs hds hne hnn hincr hne0
    have hm : optionMapList PyNum.toReal ds = some qs := by
      rw [hds]
      exact mapM_toReal_map_real qs
    have hany : ¬ (qs.any (fun q2 => decide (q2 < 0)) = true) := by
      intro hc
      obtain ⟨q, hq, hqlt⟩ := List.any_eq_true.mp hc
      have h1 := hnn q hq
      simp only [decide_eq_true_eq] at hqlt
      exact absurd h1 (not_le.mpr hqlt)
    constructor
    · intro hhead
      have hlz : withLeadZero qs = qs := by
        unfold withLeadZero
        rw [if_pos hhead]
      have hlen2 : ¬ ((withLeadZero qs).length < 2) := by
        rw [hlz]
        cases qs with
        | nil => exact absurd rfl hne
        | cons q0 t =>
          cases t with
          | nil =>
            have : q0 = 0 := by simpa using hhead
            exact absurd (by rw [this]) hne0
          | cons q1 t2 => simp
      simp only [read_shell_distances, hm]
      unfold read_shell_distances_reals
      rw [if_neg hany, if_neg (by simp [hincr]), if_neg hlen2, hlz]
    · intro hhead
      have hlz : withLeadZero qs = 0 :: qs := by
        unfold withLeadZero
        rw [if_neg hhead]
      have hlen2 : ¬ ((withLeadZero qs).length < 2) := by
        rw [hlz]
        have := List.length_pos.mpr hne
        simp
        omega
      simp only [read_shell_distances, hm]
      unfold read_shell_distances_reals
      rw [if_neg hany, if_neg (by simp [hincr]), if_neg hlen2, hlz]

theorem read_shell_distances_c3_amended_witness :
    (([(1 : ℚ), 2, 4, 5].map PyNum.real = [(1 : ℚ), 2, 4, 5].map PyNum.real) ∧
      ([(1 : ℚ), 2, 4, 5] ≠ ([] : List ℚ)) ∧
      (∀ q ∈ [(1 : ℚ), 2, 4, 5], 0 ≤ q) ∧
      strictIncrB (withLeadZero [(1 : ℚ), 2, 4, 5]) = true ∧
      ([(1 : ℚ), 2, 4, 5] ≠ [0])) ∧
    (([(1 : ℚ), 2, 4, 5].head? ≠ some 0) →
      read_shell_distances ([(1 : ℚ), 2, 4, 5].map PyNum.real) = .ok (0 :: [(1 : ℚ), 2, 4, 5])) :=
  ⟨⟨rfl, by decide, by decide, by decide, by decide⟩,
    ((read_shell_distances_c3_amended ([(1 : ℚ), 2, 4, 5].map PyNum.real)).2
      [(1 : ℚ), 2, 4, 5] rfl (by decide) (by decide) (by decide) (by decide)).2⟩

/-! ## Claim C4: scalar `target_objective` broadcast -/

lemma insertSortedBy_perm {α : Type} (le : α → α → Bool) (a : α) (l : List α) :
    (insertSortedBy le a l).Perm (a :: l) := by
  induction l with
  | nil => exact List.Perm.refl _
  | cons b t ih =>
    unfold insertSortedBy
    split
    · exact List.Perm.refl _
    · exact (ih.cons b).trans (List.Perm.swap a b t)

lemma sortListBy_perm {α : Type} (le : α → α → Bool) (l : List α) :
    (sortListBy le l).Perm l := by
  induction l with
  | nil => exact List.Perm.refl _
  | cons a t ih => exact (insertSortedBy_perm le a (sortListBy le t)).trans (ih.cons a)

/-- C4 counterexample: for the scalar target `2` with shell weights
`{1 : 1, 2 : 1/2}` and one species, the slice for shell 2 is uniformly
`1 = (1/2) * 2`, not the scalar `2` the claim predicts. -/
theorem read_target_objective_c4_counterexample :
    read_target_objective_scalar 2 [(1, 1), (2, 1/2)] 1 = [[[2]], [[1]]] ∧
    (1 : ℚ) ≠ 2 := by
  constructor
  · norm_num [read_target_objective_scalar, sortedShellWeights, sortListBy,
      insertSortedBy, List.replicate]
  · norm_num

lemma insertSortedBy_pairwise_key (a : Nat × ℚ) :
    ∀ l : List (Nat × ℚ), l.Pairwise (fun x y => x.1 ≤ y.1) →
      (insertSortedBy (fun x y => decide (x.1 ≤ y.1)) a l).Pairwise
        (fun x y => x.1 ≤ y.1) := by
  intro l
  induction l with
  | nil =>
    intro _
    simp [insertSortedBy]
  | cons b tl ih =>
    intro h
    have hb := List.pairwise_cons.mp h
    unfold insertSortedBy
    by_cases hab : a.1 ≤ b.1
    · rw [if_pos (by simpa using hab)]
      refine List.pairwise_cons.mpr ⟨?_, h⟩
      intro y hy
      rcases List.mem_cons.mp hy with rfl | hy2
      · exact hab
      · exact le_trans hab (hb.1 y hy2)
    · rw [if_neg (by simpa using hab)]
      refine List.pairwise_cons.mpr ⟨?_, ih hb.2⟩
      intro y hy
      have hy3 := (insertSortedBy_perm (fun x y => decide (x.1 ≤ y.1)) a tl).mem_iff.mp hy
      rcases List.mem_cons.mp hy3 with rfl | hy4
      · exact le_of_not_le hab
      · exact hb.1 y hy4

lemma sortedShellWeights_pairwise (sw : List (Nat × ℚ)) :
    (sortedShellWeights sw).Pairwise (fun x y => x.1 ≤ y.1) := by
  unfold sortedShellWeights sortListBy
  induction sw with
  | nil => simp
  | cons p tl ih =>
    simp only [List.foldr_cons]
    exact insertSortedBy_pairwise_key p _ ih

lemma sorted_rank_get (s : Nat) (w : ℚ) :
    ∀ l : List (Nat × ℚ), l.Pairwise (fun x y => x.1 ≤ y.1) →
      (l.map Prod.fst).Nodup → (s, w) ∈ l →
      l[l.countP (fun q => decide (q.1 < s))]? = some (s, w) := by
  intro l
  induction l with
  | nil =>
    intro _ _ h
    simp at h
  | cons p tl ih =>
    intro hpw hnd hmem
    have hpc := List.pairwise_cons.mp hpw
    simp only [List.map_cons] at hnd
    have hndc := List.nodup_cons.mp hnd
    rcases List.mem_cons.mp hmem with heq | hmem2
    · subst heq
      have h0 : tl.countP (fun q => decide (q.1 < s)) = 0 := by
        apply List.countP_eq_zero.mpr
        intro q hq
        simp only [decide_eq_true_eq]
        exact not_lt.mpr (hpc.1 q hq)
      rw [List.countP_cons, h0]
      simp
    · have hs : p.1 ≤ s := hpc.1 (s, w) hmem2
      have hne : p.1 ≠ s := by
        intro hc
        apply hndc.1
        rw [hc]
        exact List.mem_map.mpr ⟨(s, w), hmem2, rfl⟩
      have hlt : p.1 < s := lt_of_le_of_ne hs hne
      have hdec : decide (p.1 < s) = true := decide_eq_true hlt
      rw [List.countP_cons, hdec, if_pos rfl, List.getElem?_cons_succ]
      exact ih hpc.2 hndc.2 hmem2

/-- C4 (amended): the scalar target `t` yields a tensor with one `K x K` slice
per shell-weight entry, the slices ordered by ascending shell index: for every
shell-weight entry `(s, w)` the slice at position `rank(s)` — the number of
shell indices smaller than `s`, i.e. `s`'s position in ascending order — is
uniformly filled with `w * t`, not with `t` itself.  (For consecutive shell
indices `1..n`, as in the pinned test, `rank(s) = s - 1`.) -/
theorem read_target_objective_c4_amended (t : ℚ) (sw : List (Nat × ℚ)) (K : Nat)
    (hkeys : (sw.map Prod.fst).Nodup) :
    (read_target_objective_scalar t sw K).length = sw.length ∧
    (∀ slice ∈ read_target_objective_scalar t sw K,
      slice.length = K ∧ ∀ row ∈ slice, row.length = K) ∧
    (∀ p ∈ sw,
      (read_target_objective_scalar t sw K)[sw.countP (fun q => decide (q.1 < p.1))]? =
        some (List.replicate K (List.replicate K (p.2 * t)))) := by
  have hperm := sortListBy_perm (fun a b => decide (a.1 ≤ b.1)) sw
  refine ⟨?_, ?_, ?_⟩
  · unfold read_target_objective_scalar sortedShellWeights
    rw [List.length_map]
    exact hperm.length_eq
  · intro slice hs
    obtain ⟨p, _, rfl⟩ := List.mem_map.mp hs
    refine ⟨by simp, ?_⟩
    intro row hr
    rw [List.eq_of_mem_replicate hr]
    simp
  · intro p hp
    have hmem : (p.1, p.2) ∈ sortedShellWeights sw := hperm.mem_iff.mpr hp
    have hnd2 : ((sortedShellWeights sw).map Prod.fst).Nodup :=
      (List.Perm.nodup_iff (hperm.map Prod.fst)).mpr hkeys
    have hcount : (sortedShellWeights sw).countP (fun q => decide (q.1 < p.1)) =
        sw.countP (fun q => decide (q.1 < p.1)) :=
      hperm.countP_eq _
    have hget := sorted_rank_get p.1 p.2 (sortedShellWeights sw)
      (sortedShellWeights_pairwise sw) hnd2 hmem
    unfold read_target_objective_scalar
    rw [List.getElem?_map, ← hcount, hget]
    rfl

theorem read_target_objective_c4_amended_witness :
    (([((1 : Nat), (1 : ℚ)), (2, 1/2)].map Prod.fst).Nodup ∧
      ((1 : Nat), (1 : ℚ)) ∈ [((1 : Nat), (1 : ℚ)), (2, 1/2)]) ∧
    ((read_target_objective_scalar 2 [(1, 1), (2, 1/2)] 1)[
        ([((1 : Nat), (1 : ℚ)), (2, 1/2)]).countP (fun q => decide (q.1 < 1))]? =
      some (List.replicate 1 (List.replicate 1 ((1 : ℚ) * 2)))) :=
  ⟨⟨by decide, by decide⟩,
    (read_target_objective_c4_amended 2 [(1, 1), (2, 1/2)] 1 (by decide)).2.2 (1, 1)
      (by decide)⟩

/-! ## Claim C8: `sorted()` and stability -/

/-- C8 (`sorted()` is `self[np.argsort(self._numbers)]` with the default,
unstable, sort kind): on a structure with two equal-Z sites, the reversed
site order also satisfies everything `np.argsort` guarantees, so the code
admits a `sorted()` result whose equal-Z sites do NOT keep their original
relative order, contradicting the claimed stability. -/
theorem sorted_c8_unstable :
    ∃ u : Structure, twoHydrogens.sortedPossible u ∧
      u.frac_coords ≠ (stableArgsort twoHydrogens.numbers).map
        (fun i => twoHydrogens.frac_coords.getD i []) := by
  refine ⟨⟨twoHydrogens.lattice, [[0, 0, 1], [0, 0, 0]], ["H", "H"], (true, true, true)⟩,
    ⟨[1, 0], ⟨by decide, by decide, by decide, by decide⟩, rfl⟩, by decide⟩

/-! ## Claim C9: `construct_settings` -/

lemma dictHas_dictSet_of_has {V : Type} (k k2 : String) (v : V) :
    ∀ d : Dict V, dictHas d k = true → dictHas (dictSet d k v) k2 = dictHas d k2 := by
  intro d
  induction d with
  | nil =>
    intro h
    simp [dictHas] at h
  | cons p rest ih =>
    intro h
    obtain ⟨k3, v3⟩ := p
    unfold dictSet
    by_cases hk3 : k3 = k
    · rw [if_pos hk3]
      simp [dictHas]
    · rw [if_neg hk3]
      have hrest : dictHas rest k = true := by
        simpa [dictHas, hk3] using h
      simp [dictHas, ih hrest]

lemma storeGet_storeSet_ne {V : Type} (r r2 : ObjId) (d : Dict V) (hne : r2 ≠ r) :
    ∀ σ : Store V, storeGet (storeSet σ r d) r2 = storeGet σ r2 := by
  intro σ
  induction σ with
  | nil => rfl
  | cons p rest ih =>
    obtain ⟨r3, d3⟩ := p
    unfold storeSet
    by_cases h3 : r3 = r
    · rw [if_pos h3]
      subst h3
      unfold storeGet
      rw [if_neg (fun hc => hne hc.symm), if_neg (fun hc => hne hc.symm)]
    · rw [if_neg h3]
      unfold storeGet
      by_cases h2 : r3 = r2
      · rw [if_pos h2, if_pos h2]
      · rw [if_neg h2, if_neg h2]
        exact ih

lemma storeGet_storeSet_self {V : Type} (r : ObjId) (d : Dict V) :
    ∀ σ : Store V, storeGet σ r ≠ none → storeGet (storeSet σ r d) r = some d := by
  intro σ
  induction σ with
  | nil => intro h; exact absurd rfl h
  | cons p rest ih =>
    intro h
    obtain ⟨r3, d3⟩ := p
    unfold storeSet
    by_cases h3 : r3 = r
    · rw [if_pos h3]
      unfold storeGet
      rw [if_pos h3]
    · rw [if_neg h3]
      unfold storeGet
      rw [if_neg h3]
      apply ih
      unfold storeGet at h
      rw [if_neg h3] at h
      exact h

lemma storeGet_le_foldr {V : Type} : ∀ (σ : Store V) (r : ObjId),
    storeGet σ r ≠ none → r ≤ (σ.map (fun p => p.1)).foldr max 0 := by
  intro σ
  induction σ with
  | nil => intro r h; exact absurd rfl h
  | cons p rest ih =>
    intro r h
    obtain ⟨r3, d3⟩ := p
    simp only [List.map_cons, List.foldr_cons]
    unfold storeGet at h
    by_cases h3 : r3 = r
    · subst h3
      exact Nat.le_max_left _ _
    · rw [if_neg h3] at h
      exact le_trans (ih r h) (Nat.le_max_right _ _)

lemma applyOverloads_spec {V : Type} (sid : ObjId) :
    ∀ (ovs : List (String × V)) (σ : Store V) (r : ObjId) (cur : Dict V),
      storeGet σ r = some cur → sid ≠ r →
      (((applyOverloads σ r ovs).2 = none) ↔ (∀ kv ∈ ovs, dictHas cur kv.1 = true)) ∧
      storeGet (applyOverloads σ r ovs).1 sid = storeGet σ sid := by
  intro ovs
  induction ovs with
  | nil =>
    intro σ r cur hr hsid
    exact ⟨by simp [applyOverloads], rfl⟩
  | cons kv rest ih =>
    intro σ r cur hr hsid
    obtain ⟨k, v⟩ := kv
    simp only [applyOverloads, hr]
    by_cases hk : dictHas cur k = true
    · rw [if_pos hk]
      have hr2 : storeGet (storeSet σ r (dictSet cur k v)) r = some (dictSet cur k v) :=
        storeGet_storeSet_self r (dictSet cur k v) σ (by rw [hr]; simp)
      obtain ⟨hiff, hpres⟩ := ih (storeSet σ r (dictSet cur k v)) r (dictSet cur k v) hr2 hsid
      constructor
      · rw [hiff]
        constructor
        · intro hall kv2 hkv2
          rcases List.mem_cons.mp hkv2 with rfl | h2
          · exact hk
          · have := hall kv2 h2
            rw [dictHas_dictSet_of_has k kv2.1 v cur hk] at this
            exact this
        · intro hall kv2 h2
          rw [dictHas_dictSet_of_has k kv2.1 v cur hk]
          exact hall kv2 (List.mem_cons.mpr (Or.inr h2))
      · rw [hpres]
        exact storeGet_storeSet_ne r sid (dictSet cur k v) hsid σ
    · rw [if_neg hk]
      refine ⟨?_, rfl⟩
      apply iff_of_false (by simp)
      intro hall
      exact hk (hall (k, v) (List.mem_cons.mpr (Or.inl rfl)))

/-- C9: `construct_settings` raises `KeyError` exactly when some keyword
overload names a key that the settings mapping does not already contain
(settings/__init__.py lines 27-30), and on every path — success, `KeyError`,
a `BadSettings` from processing, or a missing attribute — the caller's
settings object is left untouched, because line 26 rebinds the local name to
a fresh shallow copy before any write. -/
theorem construct_settings_c9 {V : Type} (σ : Store V) (sid : ObjId) (caller : Dict V)
    (process : Bool) (processFn : Dict V → Except BadSettings (Dict V))
    (overloads : List (String × V))
    (hs : storeGet σ sid = some caller) :
    ((∃ k, (construct_settings σ sid process processFn overloads).2 =
        .error (.keyError k)) ↔
      (∃ kv ∈ overloads, dictHas caller kv.1 = false)) ∧
    storeGet (construct_settings σ sid process processFn overloads).1 sid = some caller := by
  have hfresh : sid ≠ freshId σ := by
    intro hc
    have h1 : sid ≤ (σ.map (fun p => p.1)).foldr max 0 :=
      storeGet_le_foldr σ sid (by rw [hs]; simp)
    rw [hc] at h1
    unfold freshId at h1
    exact Nat.not_succ_le_self _ h1
  have hσ1sid : storeGet ((freshId σ, caller) :: σ) sid = some caller := by
    unfold storeGet
    rw [if_neg (fun hc => hfresh hc.symm)]
    exact hs
  have hσ1fresh : storeGet ((freshId σ, caller) :: σ) (freshId σ) = some caller := by
    unfold storeGet
    rw [if_pos rfl]
  obtain ⟨hiff, hpres⟩ := applyOverloads_spec sid overloads ((freshId σ, caller) :: σ)
    (freshId σ) caller hσ1fresh hfresh
  have hkeep : storeGet (applyOverloads ((freshId σ, caller) :: σ) (freshId σ) overloads).1
      sid = some caller := by
    rw [hpres]
    exact hσ1sid
  cases hstep : (applyOverloads ((freshId σ, caller) :: σ) (freshId σ) overloads).2 with
  | some k =>
    have hcs : construct_settings σ sid process processFn overloads =
        ((applyOverloads ((freshId σ, caller) :: σ) (freshId σ) overloads).1,
          .error (.keyError k)) := by
      simp only [construct_settings, hs, hstep]
    rw [hcs]
    refine ⟨iff_of_true ⟨k, rfl⟩ ?_, hkeep⟩
    by_contra hno
    push_neg at hno
    have hall : ∀ kv ∈ overloads, dictHas caller kv.1 = true := by
      intro kv hkv
      have h2 := hno kv hkv
      cases hb : dictHas caller kv.1
      · exact absurd hb h2
      · rfl
    rw [hiff.mpr hall] at hstep
    exact Option.noConfusion hstep
  | none =>
    have hrhs : ¬ ∃ kv ∈ overloads, dictHas caller kv.1 = false := by
      rintro ⟨kv, hkv, hfalse⟩
      have h2 := hiff.mp hstep kv hkv
      rw [h2] at hfalse
      exact Bool.noConfusion hfalse
    cases hd2 : storeGet (applyOverloads ((freshId σ, caller) :: σ) (freshId σ)
        overloads).1 (freshId σ) with
    | none =>
      have hcs : construct_settings σ sid process processFn overloads =
          ((applyOverloads ((freshId σ, caller) :: σ) (freshId σ) overloads).1,
            .error (.attributeError "settings")) := by
        simp only [construct_settings, hs, hstep, hd2]
      rw [hcs]
      exact ⟨iff_of_false (by simp) hrhs, hkeep⟩
    | some d2 =>
      cases hproc : (if process then processFn d2 else Except.ok d2) with
      | error b =>
        have hcs : construct_settings σ sid process processFn overloads =
            ((applyOverloads ((freshId σ, caller) :: σ) (freshId σ) overloads).1,
              .error (.badSettings b)) := by
          simp only [construct_settings, hs, hstep, hd2, hproc]
        rw [hcs]
        exact ⟨iff_of_false (by simp) hrhs, hkeep⟩
      | ok d3 =>
        have hkeep2 : storeGet (storeSet (applyOverloads ((freshId σ, caller) :: σ)
            (freshId σ) overloads).1 (freshId σ) d3) sid = some caller := by
          rw [storeGet_storeSet_ne (freshId σ) sid d3 hfresh]
          exact hkeep
        cases hread : readIterationSettings d3 with
        | none =>
          have hcs : construct_settings σ sid process processFn overloads =
              (storeSet (applyOverloads ((freshId σ, caller) :: σ) (freshId σ)
                  overloads).1 (freshId σ) d3,
                .error (.attributeError "structure")) := by
            simp only [construct_settings, hs, hstep, hd2, hproc, hread]
          rw [hcs]
          exact ⟨iff_of_false (by simp) hrhs, hkeep2⟩
        | some its =>
          have hcs : construct_settings σ sid process processFn overloads =
              (storeSet (applyOverloads ((freshId σ, caller) :: σ) (freshId σ)
                  overloads).1 (freshId σ) d3,
                .ok its) := by
            simp only [construct_settings, hs, hstep, hd2, hproc, hread]
          rw [hcs]
          exact ⟨iff_of_false (by simp) hrhs, hkeep2⟩

theorem construct_settings_c9_witness :
    (storeGet [((0 : ObjId), [("structure", (5 : Nat))])] 0 = some [("structure", 5)]) ∧
    (((∃ k, (construct_settings [((0 : ObjId), [("structure", (5 : Nat))])] 0 false
          (fun d => .ok d) [("mode", 7)]).2 = .error (.keyError k)) ↔
        (∃ kv ∈ [("mode", (7 : Nat))], dictHas [("structure", (5 : Nat))] kv.1 = false)) ∧
      storeGet (construct_settings [((0 : ObjId), [("structure", (5 : Nat))])] 0 false
        (fun d => .ok d) [("mode", 7)]).1 0 = some [("structure", 5)]) :=
  ⟨rfl, construct_settings_c9 [((0 : ObjId), [("structure", (5 : Nat))])] 0
    [("structure", (5 : Nat))] false (fun d => .ok d) [("mode", 7)] rfl⟩

end SqsVerify
